import Mathlib

/-!
Verification development for the tumbler-doll-operator pipeline engine.

The Go sources embedded here (shallowly, as pure Lean functions) are:
  * internal/workflow/dsl_workflow.go — the pipeline AST (Pipeline, Agent,
    Stage, Step, Param, QuotedString), the execution engine
    (GroovyDSLWorkflow, Stage.execute, Stage.executeSteps, Parallel.execute),
    Step.ToCommand, QuotedString.Capture and buildImageWithTag;
  * internal/workflow/activities.go — SampleActivities.SampleActivity (direct
    host execution) and DockerActivity (containerized execution).

External effects (the Temporal activity call, the Docker API, the host shell)
are abstracted as oracle functions passed in explicitly; everything else is
translated line by line from the source.
-/

namespace Tumbler

/-! ## Go standard-library semantics used by the source -/

/-- Semantics of writing `m[k] = v` into a Go `map` represented as an
association list: overwrite the binding of `k` if present, else add it. -/
def goMapSet {α : Type} : List (String × α) → String → α → List (String × α)
  | [], k, v => [(k, v)]
  | (k', v') :: rest, k, v =>
      if k' = k then (k, v) :: rest else (k', v') :: goMapSet rest k v

/-- Semantics of Go `strings.Trim(s, cutset)`: remove all leading and all
trailing characters that are members of `cutset`. -/
def goTrim (s : String) (cutset : List Char) : String :=
  String.mk
    (((s.data.dropWhile (fun c => cutset.contains c)).reverse.dropWhile
        (fun c => cutset.contains c)).reverse)

/-- Semantics of Go `strings.Split(s, sep)` for a one-character separator:
`splitChar sep l` cuts `l` at every occurrence of `sep`.  Like Go's
`strings.Split`, it never returns the empty list (the empty input gives
one empty chunk). -/
def splitChar (sep : Char) : List Char → List (List Char)
  | [] => [[]]
  | c :: cs =>
      if c = sep then [] :: splitChar sep cs
      else
        match splitChar sep cs with
        | [] => [[c]]
        | h :: t => (c :: h) :: t

/-! ## Data model (dsl_workflow.go, type block)

The Go `Close string` fields of `Pipeline` and `Stage` only capture the
closing `"}"` grammar token and carry no data, so they are omitted. -/

/-- Go struct `Param { Key string; Value QuotedString }`. -/
structure Param where
  key : String
  value : String
deriving DecidableEq, Repr

/-- Go struct `SingleKVCommand { Command string; Value QuotedString }`. -/
structure SingleKVCommand where
  command : String
  value : String
deriving DecidableEq, Repr

/-- Go struct `MultiKVCommand { Command string; Params []Param }`. -/
structure MultiKVCommand where
  command : String
  params : List Param
deriving DecidableEq, Repr

/-- Go struct `Step { SingleKV *SingleKVCommand; MultiKV *MultiKVCommand }`:
two mutually exclusive optional pointers, modelled as two `Option`s. -/
structure Step where
  singleKV : Option SingleKVCommand
  multiKV : Option MultiKVCommand
deriving DecidableEq, Repr

/-- Go struct `Docker { Image QuotedString }`. -/
structure Docker where
  image : String
deriving DecidableEq, Repr

/-- Go struct `Agent { None bool; Docker *Docker }`. -/
structure Agent where
  none : Bool
  docker : Option Docker
deriving DecidableEq, Repr

/-- Go struct `Stage { Name string; Agent *Agent; Steps []*Step;
FailFast *bool; Parallel Parallel }` — a nested tree, since the
`Parallel` field is itself a list of stages. -/
inductive Stage : Type where
  | mk (name : String) (agent : Option Agent) (steps : List Step)
       (failFast : Option Bool) (parallel : List Stage)

/-- The `Name` field of a `Stage`. -/
def Stage.name : Stage → String
  | .mk n _ _ _ _ => n

/-- The `Agent` field of a `Stage`. -/
def Stage.agent : Stage → Option Agent
  | .mk _ a _ _ _ => a

/-- The `Steps` field of a `Stage`. -/
def Stage.steps : Stage → List Step
  | .mk _ _ s _ _ => s

/-- The `Parallel` field of a `Stage`. -/
def Stage.parallel : Stage → List Stage
  | .mk _ _ _ _ p => p

/-- Go struct `Pipeline { Agent *Agent; Stages []*Stage }`. -/
structure Pipeline where
  agent : Option Agent
  stages : List Stage

/-! ## QuotedString.Capture (dsl_workflow.go lines 68–74) -/

/-- The cutset `"'` passed to `strings.Trim` in `QuotedString.Capture`:
the double-quote character and the single-quote character. -/
def quoteCutset : List Char := [Char.ofNat 34, Char.ofNat 39]

/-- Go method `QuotedString.Capture`: the captured token text (the first
element of `values`) with quote characters trimmed via
`strings.Trim(values[0], "\"'")`. -/
def QuotedString.Capture (value : String) : String :=
  goTrim value quoteCutset

/-! ## Step.Name and Step.ToCommand (dsl_workflow.go lines 171–192) -/

/-- Go method `Step.Name`. -/
def Step.stepName (step : Step) : String :=
  match step.singleKV with
  | some s => s.command
  | Option.none =>
    match step.multiKV with
    | some m => m.command
    | Option.none => "Unknown"

/-- Go method `Step.ToCommand`: a `SingleKV` step becomes the command text
`fmt.Sprintf("%s '%s'", Command, Value)` with no parameter map; a
`MultiKV` step becomes its command name with the params inserted into a
fresh Go map; a step with neither becomes `("", nil)`. -/
def Step.ToCommand (step : Step) : String × Option (List (String × String)) :=
  match step.singleKV, step.multiKV with
  | Option.none, Option.none => ("", Option.none)
  | some s, _ =>
      (s.command ++ " '" ++ s.value ++ "'", Option.none)
  | Option.none, some m =>
      (m.command,
       some (m.params.foldl (fun acc p => goMapSet acc p.key p.value) []))

/-! ## buildImageWithTag (dsl_workflow.go lines 323–330) -/

/-- Go function `buildImageWithTag`: split the image name on `":"`; if the
split has more than one component return `component0 ++ ":" ++ component1`,
else append `":latest"`.  (`strings.Split` never yields an empty list, so
the `[]` case is unreachable.) -/
def buildImageWithTag (imageName : String) : String :=
  match splitChar (Char.ofNat 58) imageName.data with
  | a :: b :: _ => String.mk a ++ ":" ++ String.mk b
  | [a] => String.mk a ++ ":latest"
  | [] => ":latest"

/-! ## The Parallel.execute wait loop (dsl_workflow.go lines 129–160)

`Parallel.execute` starts one task per branch, registers every task's future
with one selector, and then calls `selector.Select` in a loop with index
`i = 0 .. len(p)-1`.  Each `Select` consumes the completion of exactly one
branch; the completion order is chosen by the runtime, so it is a parameter
here: a list of branch outcomes (`Option.none` = the branch succeeded,
`some e` = it failed with error `e`) in the order in which the branches
complete.  The registered callback cancels the derived child scope and
records the error when a completed future carries one; after each `Select`
the loop returns `activityErr` as soon as it is non-nil. -/

/-- The loop state of `Parallel.execute`: how many `selector.Select` calls
have been performed, whether `cancelHandler()` has been invoked on the
derived child cancellation scope, and the recorded `activityErr`. -/
structure SelState where
  waits : Nat
  cancelled : Bool
  activityErr : Option String
deriving DecidableEq, Repr

/-- One `selector.Select` call followed by the `activityErr` check, iterated
over the remaining completions: the model of the `for i := 0; i < len(p)`
wait loop of `Parallel.execute`. -/
def parallelWaitLoop : List (Option String) → SelState → Option String × SelState
  | [], st => (Option.none, st)
  | c :: rest, st =>
      let st1 : SelState :=
        match c with
        | Option.none => { st with waits := st.waits + 1 }
        | some e =>
            { waits := st.waits + 1, cancelled := true, activityErr := some e }
      match st1.activityErr with
      | some e => (some e, st1)
      | Option.none => parallelWaitLoop rest st1

/-- `Parallel.execute`'s return value and final loop state, for a parallel
group whose branches complete with the given outcomes in the given order. -/
def parallelExecuteSelector (completions : List (Option String)) :
    Option String × SelState :=
  parallelWaitLoop completions ⟨0, false, Option.none⟩

/-- Position and value of the first error in a completion order. -/
def firstErrIdx : List (Option String) → Option (Nat × String)
  | [] => Option.none
  | Option.none :: rest => (firstErrIdx rest).map (fun p => (p.1 + 1, p.2))
  | some e :: _ => some (0, e)

/-! ## The tree-walk execution engine (dsl_workflow.go lines 76–169)

`GroovyDSLWorkflow` iterates `pipeline.Stages` sequentially and stops at
the first error; `Stage.execute` runs its `Parallel` group (if any) into a
fresh `parallelResults` map, merges it under the stage name on success, and
then runs its own `Steps` through the `StageActivity` activity;
`Parallel.execute` fans the branches out and joins them.

The one abstraction beyond oracles: branch completion order inside a
parallel group is fixed to declaration order here (the selector-level model
`parallelWaitLoop` above covers an arbitrary completion order).  Every claim
proved on this tree model is insensitive to that order.  On the first branch
error the group stops, cancels the remaining branches (which therefore
contribute nothing) and propagates the error, exactly as the selector loop
does.

`Variables` and `Results` are Go maps passed by reference; both are threaded
in and out explicitly so that (non-)mutation is visible in the model. -/

/-- A value stored under a stage name in the `Results` map: either the
ordered output list of a `StageActivity` call, or the nested result map of
a parallel group. -/
inductive ResultVal : Type where
  | outputs (xs : List String)
  | nested (m : List (String × ResultVal))
deriving Repr

/-- The `results map[string]any` threaded through the tree walk. -/
abbrev Results := List (String × ResultVal)

/-- The `vars map[string]string` threaded through the tree walk. -/
abbrev Vars := List (String × String)

/-- Observable execution events, recorded so that "stage X was (never)
executed" and "steps ran after the parallel block" are statable:
`enter n` marks `Stage.execute` being invoked on the stage named `n`,
`stepsActivity n` marks the `StageActivity` activity being invoked for the
steps of the stage named `n`. -/
inductive Ev : Type where
  | enter (name : String)
  | stepsActivity (name : String)
deriving DecidableEq, Repr

/-- The oracle for the durable-execution collaborator: the outcome of the
`workflow.ExecuteActivity(ctx, "StageActivity", stage.Steps, stage.Agent)`
call (retries and timeout are internal to it; the engine sees one terminal
outcome). -/
structure EngineEnv where
  act : List Step → Option Agent → Except String (List String)

/-- What one engine call produces: the updated `results` map, the threaded
`vars` map, the list of observable events, and the returned error. -/
structure EOut where
  results : Results
  vars : Vars
  trace : List Ev
  err : Option String

/-- Go method `Stage.executeSteps` (lines 107–127): nothing happens for an
empty step list; otherwise `StageActivity` is invoked with the steps and the
stage's agent, an error is propagated with `results` untouched, and a
success writes the ordered output list under the stage name. -/
def executeSteps (env : EngineEnv) (name : String) (agent : Option Agent)
    (steps : List Step) (vars : Vars) (results : Results) : EOut :=
  match steps with
  | [] => ⟨results, vars, [], Option.none⟩
  | _ :: _ =>
    match env.act steps agent with
    | .error e => ⟨results, vars, [Ev.stepsActivity name], some e⟩
    | .ok result =>
        ⟨goMapSet results name (ResultVal.outputs result), vars,
         [Ev.stepsActivity name], Option.none⟩

mutual

/-- Go method `Stage.execute` (lines 91–105): when the stage has a parallel
group, run it into a fresh `parallelResults` map, return its error without
touching `results` if it failed, else store the nested map under the stage
name; then run the stage's own steps. -/
def stageExecute (env : EngineEnv) (stage : Stage) (vars : Vars)
    (results : Results) : EOut :=
  match stage with
  | .mk name agent steps _failFast par =>
    match par with
    | [] =>
      let st := executeSteps env name agent steps vars results
      ⟨st.results, st.vars, Ev.enter name :: st.trace, st.err⟩
    | b :: bs =>
      let p := parallelExecute env (b :: bs) vars []
      match p.err with
      | some e => ⟨results, p.vars, Ev.enter name :: p.trace, some e⟩
      | Option.none =>
        let st := executeSteps env name agent steps vars
          (goMapSet results name (ResultVal.nested p.results))
        ⟨st.results, st.vars, Ev.enter name :: (p.trace ++ st.trace), st.err⟩

/-- Go method `Parallel.execute` (lines 129–160) on the declaration-order
completion schedule: run each branch into the shared `parallelResults`
accumulator; on the first branch error, cancel the remaining branches (they
contribute nothing) and return that error. -/
def parallelExecute (env : EngineEnv) (branches : List Stage)
    (vars : Vars) (acc : Results) : EOut :=
  match branches with
  | [] => ⟨acc, vars, [], Option.none⟩
  | b :: rest =>
    let r := stageExecute env b vars acc
    match r.err with
    | some e => ⟨r.results, r.vars, r.trace, some e⟩
    | Option.none =>
      let rr := parallelExecute env rest r.vars r.results
      ⟨rr.results, rr.vars, r.trace ++ rr.trace, rr.err⟩

end

/-- The sequential loop over `pipeline.Stages` in `GroovyDSLWorkflow`
(lines 81–85): stop and return at the first stage error. -/
def stagesLoop (env : EngineEnv) : List Stage → Vars → Results → EOut
  | [], vars, results => ⟨results, vars, [], Option.none⟩
  | s :: rest, vars, results =>
    let r := stageExecute env s vars results
    match r.err with
    | some e => ⟨r.results, r.vars, r.trace, some e⟩
    | Option.none =>
      let rr := stagesLoop env rest r.vars r.results
      ⟨rr.results, rr.vars, r.trace ++ rr.trace, rr.err⟩

/-- Go function `GroovyDSLWorkflow` (lines 76–89): create fresh empty
`vars` and `results` maps, run the stages sequentially, and return
`(nil, err)` on failure or `(results, nil)` on success, paired here with
the event trace. -/
def GroovyDSLWorkflow (env : EngineEnv) (pipeline : Pipeline) :
    Option Results × List Ev × Option String :=
  let r := stagesLoop env pipeline.stages [] []
  match r.err with
  | some e => (Option.none, r.trace, some e)
  | Option.none => (some r.results, r.trace, Option.none)

/-! ## Execution backends (activities.go)

The host shell and the Docker API are abstracted as oracles: `run c` is the
outcome of `exec.Command("bash", "-c", c).Output()`, and `DockerEnv`
carries the outcomes of the image pull, container create/start/stop and of
each in-container `exec` (`ContainerExecCreate`/`Attach`/`ReadAll` merged
into one outcome per command). -/

/-- Outcomes of the Docker API calls made by `DockerActivity`. -/
structure DockerEnv where
  pull : Except String Unit
  create : Except String String
  start : Except String Unit
  exec : String → Except String String
  stop : Except String Unit
  remove : Except String Unit

/-- The per-command exec loop of `DockerActivity` (lines 77–100): each
command's output is appended to `results` in order; any exec error is
returned at once (dropping the partial list, as the Go code returns
`nil, err`). -/
def dockerExecLoop (ex : String → Except String String) :
    List String → List String → Except String (List String)
  | [], acc => .ok acc
  | c :: rest, acc =>
    match ex c with
    | .error e => .error e
    | .ok output => dockerExecLoop ex rest (acc ++ [output])

/-- Go function `DockerActivity` (lines 43–111): pull the image, create and
start the container, exec each command collecting one output per command,
stop the container (a stop error is returned, a remove error is only
logged), and return the ordered output list. -/
def DockerActivity (denv : DockerEnv) (_imageName : String)
    (commands : List String) : Except String (List String) :=
  match denv.pull with
  | .error e => .error ("failed to pull Docker image: " ++ e)
  | .ok _ =>
    match denv.create with
    | .error e => .error ("failed to create Docker container: " ++ e)
    | .ok _containerID =>
      match denv.start with
      | .error e => .error ("failed to start Docker container: " ++ e)
      | .ok _ =>
        match dockerExecLoop denv.exec commands [] with
        | .error e => .error e
        | .ok results =>
          match denv.stop with
          | .error e => .error ("failed to stop container: " ++ e)
          | .ok _ => .ok results

/-- The direct-host loop of `SampleActivity` (lines 28–39), translated as
written: `results` is declared, each command is run and its output printed,
and on an error the loop returns `(results, err)` — the Go code never
appends `output` to `results`, so the returned list stays empty. -/
def sampleHostLoop (run : String → Except String String) :
    List String → List String → List String × Option String
  | [], results => (results, Option.none)
  | c :: rest, results =>
    match run c with
    | .error e => (results, some e)
    | .ok _output => sampleHostLoop run rest results

/-- Go method `SampleActivities.SampleActivity` (lines 20–40): dispatch to
`DockerActivity` when a container image is given, else run the commands
directly on the host. -/
def SampleActivity (run : String → Except String String) (denv : DockerEnv)
    (commands : List String) (containerImage : String) :
    List String × Option String :=
  if containerImage = "" then
    sampleHostLoop run commands []
  else
    match DockerActivity denv containerImage commands with
    | .ok results => (results, Option.none)
    | .error e => ([], some e)

/-! ## Lemmas about the Parallel.execute wait loop -/

/-- When no completion carries an error, the wait loop performs one `Select`
per completion and returns `nil` without cancelling. -/
theorem parallelWaitLoop_all_ok (cs : List (Option String)) :
    ∀ (w : Nat) (c : Bool), firstErrIdx cs = Option.none →
    parallelWaitLoop cs ⟨w, c, Option.none⟩ =
      (Option.none, ⟨w + cs.length, c, Option.none⟩) := by
  induction cs with
  | nil => intro w c _; rfl
  | cons hd tl ih =>
    intro w c h
    cases hd with
    | some e =>
      rw [show firstErrIdx (some e :: tl) = some (0, e) from rfl] at h
      exact Option.noConfusion h
    | none =>
      have h' : firstErrIdx tl = Option.none := by
        cases hfe : firstErrIdx tl with
        | none => rfl
        | some p =>
          rw [show firstErrIdx (Option.none :: tl) =
              (firstErrIdx tl).map (fun p => (p.1 + 1, p.2)) from rfl,
            hfe] at h
          exact Option.noConfusion h
      have step : parallelWaitLoop (Option.none :: tl) ⟨w, c, Option.none⟩ =
          parallelWaitLoop tl ⟨w + 1, c, Option.none⟩ := rfl
      rw [step, ih (w + 1) c h']
      have harith : w + 1 + tl.length = w + (tl.length + 1) := by omega
      rw [harith]
      rfl

/-- When the completion at position `i` is the first error `e`, the wait
loop performs exactly `i + 1` `Select` calls, cancels the derived scope,
and returns `e`. -/
theorem parallelWaitLoop_first_err (cs : List (Option String)) :
    ∀ (w : Nat) (c : Bool) (i : Nat) (e : String),
    firstErrIdx cs = some (i, e) →
    parallelWaitLoop cs ⟨w, c, Option.none⟩ =
      (some e, ⟨w + i + 1, true, some e⟩) := by
  induction cs with
  | nil =>
    intro w c i e h
    rw [show firstErrIdx [] = Option.none from rfl] at h
    exact Option.noConfusion h
  | cons hd tl ih =>
    intro w c i e h
    cases hd with
    | some e' =>
      rw [show firstErrIdx (some e' :: tl) = some (0, e') from rfl] at h
      obtain ⟨hi, he⟩ := Prod.mk.injEq .. ▸ Option.some.inj h
      subst hi; subst he
      rfl
    | none =>
      rw [show firstErrIdx (Option.none :: tl) =
          (firstErrIdx tl).map (fun p => (p.1 + 1, p.2)) from rfl] at h
      cases hfe : firstErrIdx tl with
      | none => rw [hfe] at h; exact Option.noConfusion h
      | some p =>
        obtain ⟨j, e'⟩ := p
        rw [hfe] at h
        simp only [Option.map_some'] at h
        obtain ⟨hi, he⟩ := Prod.mk.injEq .. ▸ Option.some.inj h
        subst hi; subst he
        have step : parallelWaitLoop (Option.none :: tl) ⟨w, c, Option.none⟩ =
            parallelWaitLoop tl ⟨w + 1, c, Option.none⟩ := rfl
        rw [step, ih (w + 1) c j e' hfe]
        have harith : w + 1 + j + 1 = w + (j + 1) + 1 := by omega
        rw [harith]

/-- C1 (counterexample): with two branches whose first completion is the
error `"boom"`, `Parallel.execute` returns after a single
`selector.Select` call — one wait for two branch tasks — so it does not
perform N waits and returns while a task is still outstanding. -/
theorem parallel_execute_early_return_counterexample :
    parallelExecuteSelector [some "boom", Option.none] =
      (some "boom", ⟨1, true, some "boom"⟩) ∧
    [some "boom", Option.none].length = 2 :=
  ⟨rfl, rfl⟩

/-- C1 (amended): `Parallel.execute` performs one wait per branch and
returns `nil` only when every branch succeeds; at the first completion
that carries an error it cancels the derived scope and returns that error
immediately, having performed only `i + 1` waits when the failure was the
`i`-th completion — later-completing branch tasks are signalled to cancel
but are not waited for. -/
theorem parallel_execute_wait_characterization (cs : List (Option String)) :
    (firstErrIdx cs = Option.none →
      parallelExecuteSelector cs =
        (Option.none, ⟨cs.length, false, Option.none⟩)) ∧
    (∀ i e, firstErrIdx cs = some (i, e) →
      parallelExecuteSelector cs = (some e, ⟨i + 1, true, some e⟩)) := by
  constructor
  · intro h
    rw [parallelExecuteSelector, parallelWaitLoop_all_ok cs 0 false h]
    rw [Nat.zero_add]
  · intro i e h
    rw [parallelExecuteSelector, parallelWaitLoop_first_err cs 0 false i e h]
    rw [Nat.zero_add]

/-- Witness for the amended C1 theorem at concrete completion orders. -/
theorem parallel_execute_wait_characterization_witness :
    parallelExecuteSelector [Option.none, Option.none] =
      (Option.none, ⟨2, false, Option.none⟩) ∧
    parallelExecuteSelector [Option.none, some "late failure"] =
      (some "late failure", ⟨2, true, some "late failure"⟩) :=
  ⟨(parallel_execute_wait_characterization [Option.none, Option.none]).1 rfl,
   (parallel_execute_wait_characterization [Option.none, some "late failure"]).2
     1 "late failure" rfl⟩

/-- C3: whenever some branch of a parallel group fails, `Parallel.execute`
invokes the cancel handler of the derived child cancellation scope (so the
runtime delivers cancellation to the not-yet-completed sibling branches)
and returns the first failing branch's error as the group's outcome. -/
theorem parallel_execute_cancels_and_returns_first_error
    (cs : List (Option String)) (i : Nat) (e : String)
    (h : firstErrIdx cs = some (i, e)) :
    (parallelExecuteSelector cs).1 = some e ∧
    (parallelExecuteSelector cs).2.cancelled = true := by
  rw [parallelExecuteSelector, parallelWaitLoop_first_err cs 0 false i e h]
  exact ⟨rfl, rfl⟩

/-- Witness for the C3 theorem: three branches, the second completion
fails. -/
theorem parallel_execute_cancels_witness :
    (parallelExecuteSelector [Option.none, some "branch B failed",
        Option.none]).1 = some "branch B failed" ∧
    (parallelExecuteSelector [Option.none, some "branch B failed",
        Option.none]).2.cancelled = true :=
  parallel_execute_cancels_and_returns_first_error _ 1 "branch B failed" rfl

/-! ## Step translation (C5) -/

/-- The single-argument sample step `echo 'hello'`. -/
def echoStep : Step := ⟨some ⟨"echo", "hello"⟩, Option.none⟩

/-- The multi-argument sample step
`git branch: 'master', credentialsId: '123', url: 'ssh://x'`. -/
def gitStep : Step :=
  ⟨Option.none,
   some ⟨"git", [⟨"branch", "master"⟩, ⟨"credentialsId", "123"⟩,
                 ⟨"url", "ssh://x"⟩]⟩⟩

/-- C5: `Step.ToCommand` turns the single-argument step
`SingleArg("echo", "hello")` into the command text `echo 'hello'` with no
parameter mapping, and the multi-argument step
`MultiArg("git", [(branch,"master"),(credentialsId,"123"),(url,"ssh://x")])`
into the command name `git` with exactly that parameter mapping. -/
theorem step_translation :
    echoStep.ToCommand = ("echo 'hello'", Option.none) ∧
    gitStep.ToCommand =
      ("git", some [("branch", "master"), ("credentialsId", "123"),
                    ("url", "ssh://x")]) :=
  ⟨rfl, rfl⟩

/-! ## Quote stripping (C6) -/

/-- C6 (counterexample): the STRING token `"'abc'"` — a double-quoted
token whose body is the single-quoted word `'abc'` — captures as `abc`:
`strings.Trim` strips quote characters greedily from both ends, so the
inner quote layer is not preserved as the claim states. -/
theorem capture_strips_inner_layer_counterexample :
    QuotedString.Capture "\"'abc'\"" = "abc" ∧
    ("abc" : String) ≠ "'abc'" :=
  ⟨rfl, by decide⟩

/-- Every list splits as a maximal `p`-satisfying prefix followed by its
`dropWhile p`. -/
theorem dropWhile_decomp {α : Type} (p : α → Bool) (l : List α) :
    ∃ pre, (∀ c ∈ pre, p c = true) ∧ l = pre ++ l.dropWhile p := by
  induction l with
  | nil => exact ⟨[], by simp, rfl⟩
  | cons a t ih =>
    by_cases h : p a
    · obtain ⟨pre, hpre, heq⟩ := ih
      refine ⟨a :: pre, ?_, ?_⟩
      · intro c hc
        rcases List.mem_cons.mp hc with hc | hc
        · rw [hc]; exact h
        · exact hpre c hc
      · rw [List.dropWhile_cons, if_pos h, List.cons_append, ← heq]
    · refine ⟨[], by simp, ?_⟩
      rw [List.dropWhile_cons, if_neg h, List.nil_append]

/-- The head of `dropWhile p` never satisfies `p`. -/
theorem head?_dropWhile_false {α : Type} (p : α → Bool) (l : List α) :
    ∀ c ∈ (l.dropWhile p).head?, p c = false := by
  induction l with
  | nil => intro c hc; exact Option.noConfusion hc
  | cons a t ih =>
    intro c hc
    by_cases h : p a
    · rw [List.dropWhile_cons, if_pos h] at hc
      exact ih c hc
    · rw [List.dropWhile_cons, if_neg h] at hc
      rw [List.head?_cons] at hc
      rw [← Option.some.inj hc]
      exact Bool.eq_false_iff.mpr h

/-- C6 (amended): `QuotedString.Capture` strips quote delimiters greedily:
the captured value is the input with all leading and all trailing quote
characters (double or single) removed — so `"abc"` and `'abc'` both
capture as `abc`, but an inner quote layer adjacent to the ends, as in
`"'abc'"`, is removed too; no unescaping of the interior is performed. -/
theorem capture_strips_all_boundary_quotes (s : String) :
    ∃ pre post,
      (∀ c ∈ pre, quoteCutset.contains c = true) ∧
      (∀ c ∈ post, quoteCutset.contains c = true) ∧
      s.data = pre ++ (QuotedString.Capture s).data ++ post ∧
      (∀ c ∈ (QuotedString.Capture s).data.head?,
        quoteCutset.contains c = false) ∧
      (∀ c ∈ (QuotedString.Capture s).data.getLast?,
        quoteCutset.contains c = false) := by
  obtain ⟨pre, hpre, hdec⟩ :=
    dropWhile_decomp (fun c => quoteCutset.contains c) s.data
  obtain ⟨post', hpost', hdec'⟩ :=
    dropWhile_decomp (fun c => quoteCutset.contains c)
      (s.data.dropWhile (fun c => quoteCutset.contains c)).reverse
  have hcap : (QuotedString.Capture s).data =
      ((s.data.dropWhile (fun c => quoteCutset.contains c)).reverse.dropWhile
        (fun c => quoteCutset.contains c)).reverse := rfl
  have hmid : s.data.dropWhile (fun c => quoteCutset.contains c) =
      (QuotedString.Capture s).data ++ post'.reverse := by
    rw [hcap, ← List.reverse_append, ← hdec', List.reverse_reverse]
  refine ⟨pre, post'.reverse, hpre, ?_, ?_, ?_, ?_⟩
  · intro c hc
    exact hpost' c (List.mem_reverse.mp hc)
  · rw [List.append_assoc, ← hmid]
    exact hdec
  · intro c hc
    refine head?_dropWhile_false (fun c => quoteCutset.contains c) s.data c ?_
    rw [hmid, List.head?_append]
    rw [Option.mem_def] at hc
    rw [hc]
    rfl
  · intro c hc
    rw [hcap, List.getLast?_reverse] at hc
    exact head?_dropWhile_false (fun c => quoteCutset.contains c)
      (s.data.dropWhile (fun c => quoteCutset.contains c)).reverse c hc

/-- Witness for the amended C6 theorem at the concrete token `"'abc'"`. -/
theorem capture_strips_all_boundary_quotes_witness :
    ∃ pre post,
      (∀ c ∈ pre, quoteCutset.contains c = true) ∧
      (∀ c ∈ post, quoteCutset.contains c = true) ∧
      ("\"'abc'\"" : String).data =
        pre ++ (QuotedString.Capture "\"'abc'\"").data ++ post ∧
      (∀ c ∈ (QuotedString.Capture "\"'abc'\"").data.head?,
        quoteCutset.contains c = false) ∧
      (∀ c ∈ (QuotedString.Capture "\"'abc'\"").data.getLast?,
        quoteCutset.contains c = false) :=
  capture_strips_all_boundary_quotes "\"'abc'\""

/-! ## Image tag resolution (C9) -/

/-- Splitting a list that does not contain the separator yields the whole
list as the single chunk. -/
theorem splitChar_of_not_mem (sep : Char) (l : List Char) (h : sep ∉ l) :
    splitChar sep l = [l] := by
  induction l with
  | nil => rfl
  | cons c cs ih =>
    have hc : ¬ c = sep := fun hcs => h (hcs ▸ List.mem_cons_self c cs)
    have h' : sep ∉ cs := fun hm => h (List.mem_cons_of_mem c hm)
    rw [splitChar, if_neg hc, ih h']

/-- Splitting at the first separator occurrence: the separator-free prefix
becomes the first chunk. -/
theorem splitChar_append_sep (sep : Char) (a b : List Char) (h : sep ∉ a) :
    splitChar sep (a ++ sep :: b) = a :: splitChar sep b := by
  induction a with
  | nil =>
    rw [List.nil_append, splitChar, if_pos rfl]
  | cons c cs ih =>
    have hc : ¬ c = sep := fun hcs => h (hcs ▸ List.mem_cons_self c cs)
    have h' : sep ∉ cs := fun hm => h (List.mem_cons_of_mem c hm)
    rw [List.cons_append, splitChar, if_neg hc, ih h']

/-- Rebuilding a string from its character list. -/
theorem string_mk_data (s : String) : String.mk s.data = s := rfl

/-- C9 (counterexample): the image name `localhost:5000/maven:3` already
includes the tag `3`, but `buildImageWithTag` keeps only the first two
`":"`-separated components and resolves it to `localhost:5000/maven`,
dropping the tag. -/
theorem buildImageWithTag_drops_tag_counterexample :
    buildImageWithTag "localhost:5000/maven:3" = "localhost:5000/maven" ∧
    ("localhost:5000/maven" : String) ≠ "localhost:5000/maven:3" :=
  ⟨rfl, by decide⟩

/-- C9 (amended): `buildImageWithTag` appends `":latest"` when the image
name contains no `":"`; a name with exactly one `":"` (name plus tag) is
returned unchanged, keeping its tag; and a name with two or more `":"`
separators is truncated to its first two components — everything after the
second component, including a trailing tag, is dropped. -/
theorem buildImageWithTag_characterization (s : String) :
    (Char.ofNat 58 ∉ s.data → buildImageWithTag s = s ++ ":latest") ∧
    (∀ a b, s.data = a ++ Char.ofNat 58 :: b →
      Char.ofNat 58 ∉ a → Char.ofNat 58 ∉ b →
      buildImageWithTag s = s) ∧
    (∀ a b rest, s.data = a ++ Char.ofNat 58 :: (b ++ Char.ofNat 58 :: rest) →
      Char.ofNat 58 ∉ a → Char.ofNat 58 ∉ b →
      buildImageWithTag s = String.mk a ++ ":" ++ String.mk b) := by
  refine ⟨?_, ?_, ?_⟩
  · intro h
    rw [buildImageWithTag, splitChar_of_not_mem _ _ h]
  · intro a b hdec ha hb
    rw [buildImageWithTag, hdec, splitChar_append_sep _ _ _ ha,
      splitChar_of_not_mem _ _ hb]
    show String.mk ((a ++ [Char.ofNat 58]) ++ b) = s
    rw [List.append_assoc, List.singleton_append, ← hdec]
  · intro a b rest hdec ha hb
    rw [buildImageWithTag, hdec, splitChar_append_sep _ _ _ ha,
      splitChar_append_sep _ _ _ hb]

/-- Witness for the amended C9 theorem: an untagged and a tagged name. -/
theorem buildImageWithTag_characterization_witness :
    buildImageWithTag "maven" = "maven:latest" ∧
    buildImageWithTag "maven:3" = "maven:3" := by
  constructor
  · exact (buildImageWithTag_characterization "maven").1 (by decide)
  · exact (buildImageWithTag_characterization "maven:3").2.1
      ("maven".data) ("3".data) (by decide) (by decide) (by decide)

/-! ## Execution backends (C7) -/

/-- A Docker environment in which every API call succeeds and each
command's exec output is `"out " ++ command`. -/
def allOkDocker : DockerEnv :=
  ⟨.ok (), .ok "cid", .ok (), fun c => .ok ("out " ++ c), .ok (), .ok ()⟩

/-- C7 (code-bug exhibit): on the same two succeeding commands, the
containerized mode returns one output string per input command in order,
but the direct-host mode of `SampleActivity` returns an empty output list —
its loop captures each command's output and prints it, yet never appends it
to the declared `results` slice, so the two modes do not share the
one-output-per-command contract. -/
theorem host_mode_output_contract_violated :
    SampleActivity (fun c => Except.ok ("out " ++ c)) allOkDocker
        ["echo hi", "ls"] "" = ([], Option.none) ∧
    SampleActivity (fun c => Except.ok ("out " ++ c)) allOkDocker
        ["echo hi", "ls"] "alpine" =
      (["out echo hi", "out ls"], Option.none) :=
  ⟨rfl, rfl⟩

/-! ## Sequential fail-fast at the top level (C4) -/

/-- C4: when the first stage's execution returns an error, the workflow
returns that error with a `nil` results map, and the recorded event trace
is exactly the first stage's trace — the second and third stages are never
entered and no activity of theirs is ever invoked. -/
theorem groovy_sequential_fail_fast (env : EngineEnv) (s1 s2 s3 : Stage)
    (agent : Option Agent) (e : String)
    (h : (stageExecute env s1 [] []).err = some e) :
    GroovyDSLWorkflow env ⟨agent, [s1, s2, s3]⟩ =
      (Option.none, (stageExecute env s1 [] []).trace, some e) := by
  have h1 : stagesLoop env [s1, s2, s3] [] [] =
      ⟨(stageExecute env s1 [] []).results, (stageExecute env s1 [] []).vars,
       (stageExecute env s1 [] []).trace, some e⟩ := by
    simp only [stagesLoop]
    rw [h]
  simp only [GroovyDSLWorkflow]
  rw [h1]

/-- An environment in which every `StageActivity` call fails. -/
def failEnv : EngineEnv := ⟨fun _ _ => .error "boom"⟩

/-- A stage named `S1` with the single echo step and no parallel group. -/
def stageA : Stage := .mk "S1" Option.none [echoStep] Option.none []

/-- A stage named `S2` with the single echo step and no parallel group. -/
def stageB : Stage := .mk "S2" Option.none [echoStep] Option.none []

/-- A stage named `S3` with the single echo step and no parallel group. -/
def stageC : Stage := .mk "S3" Option.none [echoStep] Option.none []

/-- Witness for C4: with every activity failing, the three-stage pipeline
stops after `S1`: the trace holds no `S2` or `S3` event. -/
theorem groovy_sequential_fail_fast_witness :
    GroovyDSLWorkflow failEnv ⟨Option.none, [stageA, stageB, stageC]⟩ =
      (Option.none, [Ev.enter "S1", Ev.stepsActivity "S1"], some "boom") :=
  groovy_sequential_fail_fast failEnv stageA stageB stageC Option.none
    "boom" rfl

/-! ## Partial results on failure (C2) -/

/-- A step whose activity outcome `partialEnv` maps to success. -/
def okStep : Step := ⟨some ⟨"echo", "ok"⟩, Option.none⟩

/-- A step whose activity outcome `partialEnv` maps to failure. -/
def badStep : Step := ⟨some ⟨"sh", "exit 1"⟩, Option.none⟩

/-- An environment in which the `[okStep]` activity succeeds with output
`["hello"]` and every other activity fails with `"boom"`. -/
def partialEnv : EngineEnv :=
  ⟨fun steps _ => if steps = [okStep] then .ok ["hello"] else .error "boom"⟩

/-- A stage named `S1` that succeeds under `partialEnv`. -/
def okStage : Stage := .mk "S1" Option.none [okStep] Option.none []

/-- A stage named `S2` that fails under `partialEnv`. -/
def badStage : Stage := .mk "S2" Option.none [badStep] Option.none []

/-- C2 (counterexample): `S1` completes and its partial result is written
into the engine's internal results map, then `S2` fails — yet
`GroovyDSLWorkflow` returns `nil` for the results map alongside the error,
so the caller does not receive the preserved partial results. -/
theorem groovy_partial_results_not_returned_counterexample :
    (stageExecute partialEnv okStage [] []).err = Option.none ∧
    (stagesLoop partialEnv [okStage, badStage] [] []).results =
      [("S1", ResultVal.outputs ["hello"])] ∧
    GroovyDSLWorkflow partialEnv ⟨Option.none, [okStage, badStage]⟩ =
      (Option.none,
       [Ev.enter "S1", Ev.stepsActivity "S1", Ev.enter "S2",
        Ev.stepsActivity "S2"], some "boom") :=
  ⟨rfl, rfl, rfl⟩

/-- C2 (amended): partial results of completed sibling stages are
preserved inside the engine — a later stage executes against the results
map already holding them — but they are not returned to the caller: when
any stage fails, `GroovyDSLWorkflow` returns `nil` for the results map
alongside the error, and a failed parallel group's branch results are
likewise dropped rather than merged into the parent map. -/
theorem groovy_returns_nil_results_on_failure (env : EngineEnv)
    (s1 s2 : Stage) (agent : Option Agent) (e : String)
    (h1 : (stageExecute env s1 [] []).err = Option.none)
    (h2 : (stageExecute env s2 (stageExecute env s1 [] []).vars
            (stageExecute env s1 [] []).results).err = some e) :
    GroovyDSLWorkflow env ⟨agent, [s1, s2]⟩ =
      (Option.none,
       (stageExecute env s1 [] []).trace ++
         (stageExecute env s2 (stageExecute env s1 [] []).vars
           (stageExecute env s1 [] []).results).trace,
       some e) := by
  have houter : stagesLoop env [s1, s2] [] [] =
      ⟨(stageExecute env s2 (stageExecute env s1 [] []).vars
          (stageExecute env s1 [] []).results).results,
       (stageExecute env s2 (stageExecute env s1 [] []).vars
          (stageExecute env s1 [] []).results).vars,
       (stageExecute env s1 [] []).trace ++
         (stageExecute env s2 (stageExecute env s1 [] []).vars
           (stageExecute env s1 [] []).results).trace, some e⟩ := by
    simp only [stagesLoop]
    rw [h1, h2]
  simp only [GroovyDSLWorkflow]
  rw [houter]

/-- Witness for the amended C2 theorem on the concrete two-stage
pipeline. -/
theorem groovy_returns_nil_results_on_failure_witness :
    GroovyDSLWorkflow partialEnv ⟨Option.none, [okStage, badStage]⟩ =
      (Option.none,
       [Ev.enter "S1", Ev.stepsActivity "S1", Ev.enter "S2",
        Ev.stepsActivity "S2"], some "boom") :=
  groovy_returns_nil_results_on_failure partialEnv okStage badStage
    Option.none "boom" rfl rfl

/-! ## Steps run after the parallel block (C8) -/

/-- C8: for a stage that has both a parallel group and its own steps, the
stage's steps activity runs only after every parallel-branch event, and
when the parallel group reports an error the stage returns it immediately:
its own steps activity is never invoked (the trace ends with the parallel
events) and the results map is left untouched. -/
theorem stage_steps_after_parallel (env : EngineEnv) (name : String)
    (agent : Option Agent) (steps : List Step) (ff : Option Bool)
    (par : List Stage) (v : Vars) (res : Results)
    (hp : par ≠ []) (hs : steps ≠ []) :
    (∀ e, (parallelExecute env par v []).err = some e →
      stageExecute env (.mk name agent steps ff par) v res =
        ⟨res, (parallelExecute env par v []).vars,
         Ev.enter name :: (parallelExecute env par v []).trace, some e⟩) ∧
    ((parallelExecute env par v []).err = Option.none →
      (stageExecute env (.mk name agent steps ff par) v res).trace =
        Ev.enter name :: ((parallelExecute env par v []).trace ++
          [Ev.stepsActivity name])) := by
  obtain ⟨b, bs, rfl⟩ : ∃ x xs, par = x :: xs := by
    cases par with
    | nil => exact absurd rfl hp
    | cons x xs => exact ⟨x, xs, rfl⟩
  obtain ⟨st0, strest, rfl⟩ : ∃ x xs, steps = x :: xs := by
    cases steps with
    | nil => exact absurd rfl hs
    | cons x xs => exact ⟨x, xs, rfl⟩
  constructor
  · intro e he
    simp only [stageExecute]
    rw [he]
  · intro hnone
    simp only [stageExecute]
    rw [hnone]
    cases hact : env.act (st0 :: strest) agent with
    | error e2 => simp only [executeSteps, hact]
    | ok out => simp only [executeSteps, hact]

/-- A branch stage that fails under `partialEnv`. -/
def branchFail : Stage := .mk "BranchA" Option.none [badStep] Option.none []

/-- A branch stage that succeeds under `partialEnv`. -/
def branchOk : Stage := .mk "BranchB" Option.none [okStep] Option.none []

/-- Witness for C8: a stage with both a parallel group and steps, once
with a failing branch (steps never run) and once with a succeeding branch
(the steps activity event comes after every branch event). -/
theorem stage_steps_after_parallel_witness :
    stageExecute partialEnv
        (.mk "Deploy" Option.none [okStep] Option.none [branchFail]) [] [] =
      ⟨[], [],
       [Ev.enter "Deploy", Ev.enter "BranchA", Ev.stepsActivity "BranchA"],
       some "boom"⟩ ∧
    (stageExecute partialEnv
        (.mk "Deploy2" Option.none [okStep] Option.none [branchOk]) [] []).trace =
      [Ev.enter "Deploy2", Ev.enter "BranchB", Ev.stepsActivity "BranchB",
       Ev.stepsActivity "Deploy2"] :=
  ⟨(stage_steps_after_parallel partialEnv "Deploy" Option.none [okStep]
      Option.none [branchFail] [] [] (List.cons_ne_nil _ _)
      (List.cons_ne_nil _ _)).1 "boom" rfl,
   (stage_steps_after_parallel partialEnv "Deploy2" Option.none [okStep]
      Option.none [branchOk] [] [] (List.cons_ne_nil _ _)
      (List.cons_ne_nil _ _)).2 rfl⟩

/-! ## The engine never touches the variables map (C10) -/

/-- `executeSteps` returns the variables map unchanged, and its results,
trace and error do not depend on it: the `StageActivity` call receives
only the steps and the agent. -/
theorem executeSteps_frame (env : EngineEnv) (name : String)
    (agent : Option Agent) (steps : List Step) (res : Results)
    (v1 v2 : Vars) :
    (executeSteps env name agent steps v1 res).vars = v1 ∧
    (executeSteps env name agent steps v1 res).results =
      (executeSteps env name agent steps v2 res).results ∧
    (executeSteps env name agent steps v1 res).trace =
      (executeSteps env name agent steps v2 res).trace ∧
    (executeSteps env name agent steps v1 res).err =
      (executeSteps env name agent steps v2 res).err := by
  cases steps with
  | nil => exact ⟨rfl, rfl, rfl, rfl⟩
  | cons a t =>
    refine ⟨?_, ?_, ?_, ?_⟩ <;>
      cases hact : env.act (a :: t) agent <;>
        simp [executeSteps, hact]

mutual

/-- Frame property of `Stage.execute` over the whole stage tree: the
variables map is passed through unchanged and influences nothing. -/
theorem stageExecute_frame_aux (env : EngineEnv) (s : Stage) :
    ∀ (res : Results) (v1 v2 : Vars),
    (stageExecute env s v1 res).vars = v1 ∧
    (stageExecute env s v1 res).results = (stageExecute env s v2 res).results ∧
    (stageExecute env s v1 res).trace = (stageExecute env s v2 res).trace ∧
    (stageExecute env s v1 res).err = (stageExecute env s v2 res).err := by
  intro res v1 v2
  obtain ⟨name, agent, steps, ff, par⟩ := s
  cases par with
  | nil =>
    obtain ⟨hv, hr, ht, he⟩ := executeSteps_frame env name agent steps res v1 v2
    exact ⟨hv, hr, congrArg (List.cons (Ev.enter name)) ht, he⟩
  | cons b bs =>
    obtain ⟨pv1, pr, pt, pe⟩ := parallelExecute_frame_aux env (b :: bs) [] v1 v2
    obtain ⟨pv2, -, -, -⟩ := parallelExecute_frame_aux env (b :: bs) [] v2 v1
    simp only [stageExecute]
    cases hpe : (parallelExecute env (b :: bs) v1 []).err with
    | some e =>
      have hpe2 : (parallelExecute env (b :: bs) v2 []).err = some e :=
        pe ▸ hpe
      rw [hpe2, pt]
      exact ⟨pv1, rfl, rfl, rfl⟩
    | none =>
      have hpe2 : (parallelExecute env (b :: bs) v2 []).err = Option.none :=
        pe ▸ hpe
      rw [hpe2, pr, pt]
      obtain ⟨sv, sr, st, se⟩ := executeSteps_frame env name agent steps
        (goMapSet res name
          (ResultVal.nested (parallelExecute env (b :: bs) v2 []).results))
        v1 v2
      exact ⟨sv, sr, by rw [st], se⟩

/-- Frame property of `Parallel.execute` over a branch list: the variables
map is passed through unchanged and influences nothing. -/
theorem parallelExecute_frame_aux (env : EngineEnv) (l : List Stage) :
    ∀ (acc : Results) (v1 v2 : Vars),
    (parallelExecute env l v1 acc).vars = v1 ∧
    (parallelExecute env l v1 acc).results =
      (parallelExecute env l v2 acc).results ∧
    (parallelExecute env l v1 acc).trace =
      (parallelExecute env l v2 acc).trace ∧
    (parallelExecute env l v1 acc).err =
      (parallelExecute env l v2 acc).err := by
  intro acc v1 v2
  cases l with
  | nil => exact ⟨rfl, rfl, rfl, rfl⟩
  | cons b rest =>
    obtain ⟨bv1, br, bt, be⟩ := stageExecute_frame_aux env b acc v1 v2
    obtain ⟨bv2, -, -, -⟩ := stageExecute_frame_aux env b acc v2 v1
    simp only [parallelExecute]
    cases hbe : (stageExecute env b v1 acc).err with
    | some e =>
      have hbe2 : (stageExecute env b v2 acc).err = some e := be ▸ hbe
      rw [hbe2, br, bt]
      exact ⟨bv1, rfl, rfl, rfl⟩
    | none =>
      have hbe2 : (stageExecute env b v2 acc).err = Option.none := be ▸ hbe
      rw [hbe2, br, bt, bv1, bv2]
      obtain ⟨iv, ir, it, ie⟩ := parallelExecute_frame_aux env rest
        (stageExecute env b v2 acc).results v1 v2
      exact ⟨iv, ir, by rw [it], ie⟩

end

/-- C10: the execution engine never reads or writes the variables map —
`Stage.execute` (and through it `Parallel.execute` and
`Stage.executeSteps`) returns the variables map exactly as it received it,
and for any two variables maps it produces the same results map, the same
event trace and the same error. -/
theorem engine_ignores_variables (env : EngineEnv) (s : Stage)
    (res : Results) (v1 v2 : Vars) :
    (stageExecute env s v1 res).vars = v1 ∧
    (stageExecute env s v1 res).results = (stageExecute env s v2 res).results ∧
    (stageExecute env s v1 res).trace = (stageExecute env s v2 res).trace ∧
    (stageExecute env s v1 res).err = (stageExecute env s v2 res).err :=
  stageExecute_frame_aux env s res v1 v2

end Tumbler
